import Mathlib

set_option maxHeartbeats 1000000

/-!
Verification development for a small networked file store.

The program under study consists of `file_protocol.py` (class `FileProtocol`:
command parsing in `proses_string`, the four handlers `_handle_upload`,
`_handle_get`, `_handle_list`, `_handle_delete`, and the filename validator
`_is_valid_filename`) and `file_server_processpool.py` (the per-connection
session loop `handle_client` that frames the byte stream on the delimiter
`\r\n\r\n`).

The embedding below models strings as `List Char` (Python `str` is a sequence
of code points), byte strings as `List Nat` with every byte below 256, and the
flat storage directory as an association list from full path to file content.
Path resolution by the operating system is modelled only as far as the code
exercises it: a path whose final component is an empty string, a dot or a
double dot resolves to a directory, so opening, writing or removing it raises,
exactly as CPython raises IsADirectoryError (see `dirLike`).  Exceptions of
fallible operations are modelled with `Except`/`Option`; an extra
`io : Option String` argument lets any filesystem operation of a handler fail
with an arbitrary message, modelling unexpected I/O errors that the generic
`except` clauses of the handlers catch.
-/

/-- Membership of a character in the set stripped by Python `str.strip()`
(characters `c` with `c.isspace()` true). -/
def pyIsSpace (c : Char) : Bool :=
  c ∈ ([' ', '\t', '\n', '\x0b', '\x0c', '\r',
        '\x1c', '\x1d', '\x1e', '\x1f', '\x85', '\u00A0',
        '\u1680', '\u2000', '\u2001', '\u2002', '\u2003', '\u2004', '\u2005',
        '\u2006', '\u2007', '\u2008', '\u2009', '\u200A', '\u2028', '\u2029',
        '\u202F', '\u205F', '\u3000'] : List Char)

/-- Remove trailing whitespace, as the right half of Python `str.strip()`. -/
def rstripWs (s : List Char) : List Char :=
  (s.reverse.dropWhile pyIsSpace).reverse

/-- Python `str.strip()`: drop leading and trailing whitespace. -/
def pyStrip (s : List Char) : List Char :=
  rstripWs (s.dropWhile pyIsSpace)

/-- Python `str.upper()` (on the ASCII range; commands of this protocol are
ASCII text). -/
def pyUpper (s : List Char) : List Char := s.map Char.toUpper

/-- Split a list at the first occurrence of `sep`: `none` when `sep` does not
occur, otherwise the part before and the part after that occurrence. -/
def splitFirst (sep : Char) : List Char → Option (List Char × List Char)
  | [] => none
  | c :: cs =>
    if c = sep then some ([], cs)
    else (splitFirst sep cs).map (fun p => (c :: p.1, p.2))

/-- Python `s.split(' ', 2)`: split on single spaces, at most twice, keeping
empty pieces.  The result always has between one and three elements. -/
def pySplit2 (s : List Char) : List (List Char) :=
  match splitFirst ' ' s with
  | none => [s]
  | some (a, r) =>
    match splitFirst ' ' r with
    | none => [a, r]
    | some (b, r2) => [a, b, r2]

-- ===== base64 (Python `base64.b64encode` / `base64.b64decode`) =====

/-- The standard base64 alphabet, in index order. -/
def b64alphabet : List Char :=
  "ABCDEFGHIJKLMNOPQRSTUVWXYZabcdefghijklmnopqrstuvwxyz0123456789+/".data

/-- The alphabet character of a six-bit value. -/
def encChar (n : Nat) : Char := b64alphabet.getD n 'A'

/-- The six-bit value of an alphabet character, `none` for characters outside
the alphabet (in particular for the padding character). -/
def decChar (c : Char) : Option Nat :=
  (List.range 64).find? (fun n => encChar n == c)

/-- `base64.b64encode` on a byte string, producing the padded text form. -/
def b64encode : List Nat → List Char
  | [] => []
  | [a] => [encChar (a / 4), encChar (a % 4 * 16), '=', '=']
  | [a, b] => [encChar (a / 4), encChar (a % 4 * 16 + b / 16), encChar (b % 16 * 4), '=']
  | a :: b :: c :: rest =>
    encChar (a / 4) :: encChar (a % 4 * 16 + b / 16) ::
    encChar (b % 16 * 4 + c / 64) :: encChar (c % 64) :: b64encode rest

/-- `base64.b64decode` on well-formed padded input (groups of four alphabet
characters, with `=` padding closing the final group); `none` models the
`binascii.Error` that the code converts into an error response. -/
def b64decode : List Char → Option (List Nat)
  | [] => some []
  | c1 :: c2 :: c3 :: c4 :: rest =>
    if c3 = '=' ∧ c4 = '=' ∧ rest = [] then
      match decChar c1, decChar c2 with
      | some v1, some v2 => some [v1 * 4 + v2 / 16]
      | _, _ => none
    else if c4 = '=' ∧ rest = [] then
      match decChar c1, decChar c2, decChar c3 with
      | some v1, some v2, some v3 => some [v1 * 4 + v2 / 16, v2 % 16 * 16 + v3 / 4]
      | _, _, _ => none
    else
      match decChar c1, decChar c2, decChar c3, decChar c4 with
      | some v1, some v2, some v3, some v4 =>
        (b64decode rest).map
          (fun bs => (v1 * 4 + v2 / 16) :: (v2 % 16 * 16 + v3 / 4) :: (v3 % 4 * 64 + v4) :: bs)
      | _, _, _, _ => none
  | _ => none

-- ===== filename validator (`FileProtocol._is_valid_filename`) =====

/-- The denylist of `_is_valid_filename`, in source order. -/
def dangerous_chars : List (List Char) :=
  [['.', '.'], ['/'], ['\\'], [':'], ['*'], ['?'], ['"'], ['<'], ['>'], ['|']]

/-- Python substring containment `sub in s`. -/
def hasSub (sub : List Char) : List Char → Bool
  | [] => sub == []
  | c :: cs => sub.isPrefixOf (c :: cs) || hasSub sub cs

/-- `FileProtocol._is_valid_filename`: reject the empty name, any name with a
denylisted substring, and any name longer than 255 characters. -/
def is_valid_filename (filename : List Char) : Bool :=
  if filename = [] then false
  else if dangerous_chars.any (fun d => hasSub d filename) then false
  else if filename.length > 255 then false
  else true

-- ===== filesystem model =====

/-- The filesystem as a finite map from full path to file content (bytes). -/
abbrev FS := List (List Char × List Nat)

/-- `os.path.join` for a single component (POSIX rules, as far as the code
exercises them). -/
def joinPath (a b : List Char) : List Char :=
  if b.take 1 = ['/'] then b
  else if a = [] ∨ a.getLast? = some '/' then a ++ b
  else a ++ '/' :: b

/-- A path that does not name a regular-file slot: its final component is
empty, `.` or `..`, so the operating system resolves it to a directory and
`open`, `write` and `os.remove` on it raise. -/
def dirLike (p : List Char) : Bool :=
  p == [] || p == ['.'] || p == ['.', '.'] || p.getLast? == some '/' ||
  ['/', '.'].isSuffixOf p || ['/', '.', '.'].isSuffixOf p

/-- Content of the file at path `p`, if a regular file is stored there. -/
def fsLookup (fs : FS) (p : List Char) : Option (List Nat) :=
  (fs.find? (fun e => e.1 == p)).map (fun e => e.2)

/-- `os.path.exists`: true for a stored regular file and for the
directory-like paths the storage root keeps alive. -/
def os_path_exists (fs : FS) (p : List Char) : Bool :=
  dirLike p || (fsLookup fs p).isSome

/-- Overwrite-write of a regular file (the effect of `open(p,'wb').write`). -/
def fsWrite (fs : FS) (p : List Char) (content : List Nat) : FS :=
  fs.filter (fun e => !(e.1 == p)) ++ [(p, content)]

/-- Removal of a regular file (the effect of `os.remove`). -/
def fsRemove (fs : FS) (p : List Char) : FS :=
  fs.filter (fun e => !(e.1 == p))

/-- `open(p,'wb')` followed by writing `content`: raises on a directory-like
path, otherwise overwrites. -/
def openWrite (fs : FS) (p : List Char) (content : List Nat) : Except (List Char) FS :=
  if dirLike p then Except.error "is a directory".data
  else Except.ok (fsWrite fs p content)

/-- `open(p,'rb')` followed by reading everything: raises on a directory-like
or absent path. -/
def openRead (fs : FS) (p : List Char) : Except (List Char) (List Nat) :=
  if dirLike p then Except.error "is a directory".data
  else
    match fsLookup fs p with
    | some content => Except.ok content
    | none => Except.error "no such file".data

/-- `os.remove p`: raises on a directory-like or absent path. -/
def os_remove (fs : FS) (p : List Char) : Except (List Char) FS :=
  if dirLike p then Except.error "is a directory".data
  else
    match fsLookup fs p with
    | some _ => Except.ok (fsRemove fs p)
    | none => Except.error "no such file".data

/-- `os.listdir root`: the names of the entries lying directly inside `root`
(`os.listdir` never reports `.` or `..`). -/
def listdir (fs : FS) (root : List Char) : List (List Char) :=
  fs.filterMap (fun e =>
    if (root ++ ['/']).isPrefixOf e.1 then
      if e.1.drop (root.length + 1) = [] ∨ (e.1.drop (root.length + 1)).contains '/' ∨
          e.1.drop (root.length + 1) = ['.'] ∨ e.1.drop (root.length + 1) = ['.', '.'] then
        none
      else some (e.1.drop (root.length + 1))
    else none)

/-- `os.path.isfile`. -/
def os_path_isfile (fs : FS) (p : List Char) : Bool :=
  !(dirLike p) && (fsLookup fs p).isSome

/-- Inject an externally forced I/O failure (`io = some msg`) in front of a
fallible filesystem operation; with `io = none` the operation itself decides. -/
def ioOr (io : Option String) (r : Except (List Char) α) : Except (List Char) α :=
  match io with
  | some m => Except.error m.data
  | none => r

-- ===== responses and instrumented results =====

/-- One JSON response record, with exactly the fields the handlers emit
(`json.dumps` serialization of this record is abstracted away). -/
structure Response where
  status : String
  data : List Char
  data_file : Option (List Char) := none
  file_size : Option Nat := none
  files : Option (List (List Char × Nat)) := none
  count : Option Nat := none
deriving DecidableEq

/-- An ERROR response carrying only a message. -/
def errResp (m : List Char) : Response :=
  { status := "ERROR", data := m }

/-- One filesystem access performed (or attempted) by a handler, by kind. -/
inductive FAccess where
  | statA (p : List Char)
  | readA (p : List Char)
  | writeA (p : List Char)
  | removeA (p : List Char)
  | listA (p : List Char)
deriving DecidableEq

/-- The path an access touches. -/
def FAccess.path : FAccess → List Char
  | .statA p => p
  | .readA p => p
  | .writeA p => p
  | .removeA p => p
  | .listA p => p

/-- Whether an access opens, reads, writes or deletes file content (stat-only
accesses and directory enumeration are not content accesses). -/
def FAccess.isContent : FAccess → Bool
  | .readA _ => true
  | .writeA _ => true
  | .removeA _ => true
  | _ => false

/-- The result of processing one command: the response, the filesystem after
the command, and the accesses the handler performed. -/
structure StepResult where
  resp : Response
  fs : FS
  accesses : List FAccess
deriving DecidableEq

-- ===== handlers (`FileProtocol._handle_*`) =====

/-- `FileProtocol._handle_upload` (the source binds `filename = parts[1]`,
`base64_content = parts[2]` and `file_path = os.path.join(...)`; they are
inlined here). -/
def handle_upload (storage : List Char) (io : Option String) (fs : FS)
    (parts : List (List Char)) : StepResult :=
  if parts.length < 3 then
    ⟨errResp "UPLOAD command requires filename and content".data, fs, []⟩
  else if !(is_valid_filename (parts.getD 1 [])) then
    ⟨errResp "Invalid filename".data, fs, []⟩
  else
    match b64decode (parts.getD 2 []) with
    | none => ⟨errResp "Invalid base64 content".data, fs, []⟩
    | some file_content =>
      match ioOr io (openWrite fs (joinPath storage (parts.getD 1 [])) file_content) with
      | Except.error m =>
        ⟨errResp ("Upload failed: ".data ++ m), fs,
         [.writeA (joinPath storage (parts.getD 1 []))]⟩
      | Except.ok fs2 =>
        ⟨{ status := "OK",
           data := "File ".data ++ parts.getD 1 [] ++ " uploaded successfully".data,
           file_size := some file_content.length },
         fs2, [.writeA (joinPath storage (parts.getD 1 []))]⟩

/-- `FileProtocol._handle_get` (`filename` and `file_path` inlined as above). -/
def handle_get (storage : List Char) (io : Option String) (fs : FS)
    (parts : List (List Char)) : StepResult :=
  if parts.length < 2 then
    ⟨errResp "GET command requires filename".data, fs, []⟩
  else if !(is_valid_filename (parts.getD 1 [])) then
    ⟨errResp "Invalid filename".data, fs, []⟩
  else if !(os_path_exists fs (joinPath storage (parts.getD 1 []))) then
    ⟨errResp ("File not found: ".data ++ parts.getD 1 []), fs,
     [.statA (joinPath storage (parts.getD 1 []))]⟩
  else
    match ioOr io (openRead fs (joinPath storage (parts.getD 1 []))) with
    | Except.error m =>
      ⟨errResp ("Get failed: ".data ++ m), fs,
       [.statA (joinPath storage (parts.getD 1 [])),
        .readA (joinPath storage (parts.getD 1 []))]⟩
    | Except.ok file_content =>
      ⟨{ status := "OK",
         data := "File ".data ++ parts.getD 1 [] ++ " retrieved successfully".data,
         data_file := some (b64encode file_content),
         file_size := some file_content.length },
       fs,
       [.statA (joinPath storage (parts.getD 1 [])),
        .readA (joinPath storage (parts.getD 1 []))]⟩

/-- `FileProtocol._handle_list` (the loop over `os.listdir` keeps the
`os.path.isfile` entries with their `os.path.getsize`). -/
def handle_list (storage : List Char) (io : Option String) (fs : FS) : StepResult :=
  match io with
  | some m => ⟨errResp ("List failed: ".data ++ m.data), fs, [.listA storage]⟩
  | none =>
    ⟨{ status := "OK",
       data := "File list retrieved successfully".data,
       files := some (((listdir fs storage).filter
           (fun n => os_path_isfile fs (joinPath storage n))).map
         (fun n => (n, (fsLookup fs (joinPath storage n)).getD [] |>.length))),
       count := some (((listdir fs storage).filter
           (fun n => os_path_isfile fs (joinPath storage n))).map
         (fun n => (n, (fsLookup fs (joinPath storage n)).getD [] |>.length))).length },
     fs,
     FAccess.listA storage ::
       (listdir fs storage).map (fun n => FAccess.statA (joinPath storage n))⟩

/-- `FileProtocol._handle_delete` (`filename` and `file_path` inlined). -/
def handle_delete (storage : List Char) (io : Option String) (fs : FS)
    (parts : List (List Char)) : StepResult :=
  if parts.length < 2 then
    ⟨errResp "DELETE command requires filename".data, fs, []⟩
  else if !(is_valid_filename (parts.getD 1 [])) then
    ⟨errResp "Invalid filename".data, fs, []⟩
  else if !(os_path_exists fs (joinPath storage (parts.getD 1 []))) then
    ⟨errResp ("File not found: ".data ++ parts.getD 1 []), fs,
     [.statA (joinPath storage (parts.getD 1 []))]⟩
  else
    match ioOr io (os_remove fs (joinPath storage (parts.getD 1 []))) with
    | Except.error m =>
      ⟨errResp ("Delete failed: ".data ++ m), fs,
       [.statA (joinPath storage (parts.getD 1 [])),
        .removeA (joinPath storage (parts.getD 1 []))]⟩
    | Except.ok fs2 =>
      ⟨{ status := "OK",
         data := "File ".data ++ parts.getD 1 [] ++ " deleted successfully".data },
       fs2,
       [.statA (joinPath storage (parts.getD 1 [])),
        .removeA (joinPath storage (parts.getD 1 []))]⟩

-- ===== command dispatch (`FileProtocol.proses_string`) =====

/-- The dispatch of `proses_string` after the command line has been split into
parts: empty-parts guard, uppercase the verb, route to the handler, unknown
verbs become an error response. -/
def prosesParts (storage : List Char) (io : Option String) (fs : FS)
    (parts : List (List Char)) : StepResult :=
  match parts with
  | [] => ⟨errResp "Empty command".data, fs, []⟩
  | p0 :: _ =>
    if pyUpper p0 = "UPLOAD".data then handle_upload storage io fs parts
    else if pyUpper p0 = "GET".data then handle_get storage io fs parts
    else if pyUpper p0 = "LIST".data then handle_list storage io fs
    else if pyUpper p0 = "DELETE".data then handle_delete storage io fs parts
    else ⟨errResp ("Unknown command: ".data ++ pyUpper p0), fs, []⟩

/-- `FileProtocol.proses_string`: strip the command string, split it on the
first two spaces, and dispatch.  Total: every branch of the code returns a
response, so no exception escapes. -/
def proses_string (storage : String) (io : Option String) (fs : FS)
    (command_string : String) : StepResult :=
  prosesParts storage.data io fs (pySplit2 (pyStrip command_string.data))

-- ===== session loop (`handle_client` of `file_server_processpool.py`) =====

/-- The frame delimiter `\r\n\r\n`. -/
def delimL : List Char := ['\r', '\n', '\r', '\n']

/-- `buffer.split("\r\n\r\n", 1)` when the delimiter occurs: the part before
the first occurrence and the part after it. -/
def splitOnceDelim : List Char → Option (List Char × List Char)
  | [] => none
  | c :: cs =>
    if c = '\r' ∧ cs.take 3 = ['\n', '\r', '\n'] then some ([], cs.drop 3)
    else (splitOnceDelim cs).map (fun p => (c :: p.1, p.2))

/-- The inner `while "\r\n\r\n" in buffer` loop of `handle_client`, with
explicit fuel: repeatedly split one complete frame off the buffer, process it,
and emit its response, in order.  Each iteration consumes at least the four
delimiter characters, so `buffer.length` fuel is always enough; `processBuffer`
below supplies it, so the fuel-exhausted branch is never taken. -/
def processBufferAux (storage : String) : Nat → FS → List Char →
    List Response × FS × List Char
  | 0, fs, buffer => ([], fs, buffer)
  | Nat.succ fuel, fs, buffer =>
    match splitOnceDelim buffer with
    | none => ([], fs, buffer)
    | some (command, rest) =>
      let st := proses_string storage none fs (String.mk command)
      let r := processBufferAux storage fuel st.fs rest
      (st.resp :: r.1, r.2.1, r.2.2)

/-- Drain every complete frame from the session buffer: the emitted responses
in order, the filesystem afterwards, and the unconsumed remainder of the
buffer. -/
def processBuffer (storage : String) (fs : FS) (buffer : List Char) :
    List Response × FS × List Char :=
  processBufferAux storage buffer.length fs buffer

/-- Process a list of command frames in order, threading the filesystem. -/
def runCommands (storage : String) : FS → List (List Char) → List Response × FS
  | fs, [] => ([], fs)
  | fs, c :: cs =>
    let st := proses_string storage none fs (String.mk c)
    let r := runCommands storage st.fs cs
    (st.resp :: r.1, r.2)

/-- A buffer holding the given frames back to back, each terminated by the
delimiter. -/
def frameJoin (frames : List (List Char)) : List Char :=
  (frames.map (fun f => f ++ delimL)).flatten

-- ===== derived notions used by the claims =====

/-- The parts a command line contributes after the verb and the single space
following it: what `strip` and `split(' ', 2)` leave of the text after
`<VERB> `. -/
def tailParts (rest : List Char) : List (List Char) :=
  if rstripWs rest = [] then []
  else
    match splitFirst ' ' (rstripWs rest) with
    | none => [rstripWs rest]
    | some (a, b) => [a, b]

/-- `p` stays within the directory `root`: it is `root` itself, or
`root ++ "/" ++ n` for a single separator-free component `n` that is not the
parent directory (`n = "."` again names `root` itself). -/
def withinRoot (root p : List Char) : Prop :=
  p = root ∨
  ∃ n, n ≠ [] ∧ '/' ∉ n ∧ n ≠ ['.', '.'] ∧ p = root ++ '/' :: n

-- ===== helper lemmas: whitespace, strip and split =====

theorem dropWhile_all_neg {p : Char → Bool} {l : List Char}
    (h : ∀ c ∈ l, p c = false) : l.dropWhile p = l := by
  cases l with
  | nil => rfl
  | cons c cs =>
    exact List.dropWhile_cons_of_neg (by simp [h c (List.mem_cons_self c cs)])

theorem dropWhile_append_all {p : Char → Bool} :
    ∀ (l₁ l₂ : List Char), (∀ c ∈ l₁, p c = true) →
      (l₁ ++ l₂).dropWhile p = l₂.dropWhile p
  | [], _, _ => rfl
  | c :: cs, l₂, h => by
    rw [List.cons_append, List.dropWhile_cons_of_pos (h c (List.mem_cons_self c cs))]
    exact dropWhile_append_all cs l₂ (fun d hd => h d (List.mem_cons_of_mem c hd))

theorem dropWhile_append_ne {p : Char → Bool} :
    ∀ (l₁ l₂ : List Char), l₁.dropWhile p ≠ [] →
      (l₁ ++ l₂).dropWhile p = l₁.dropWhile p ++ l₂
  | [], _, h => absurd rfl h
  | c :: cs, l₂, h => by
    by_cases hc : p c = true
    · rw [List.dropWhile_cons_of_pos hc] at h
      rw [List.cons_append, List.dropWhile_cons_of_pos hc, List.dropWhile_cons_of_pos hc]
      exact dropWhile_append_ne cs l₂ h
    · rw [List.cons_append, List.dropWhile_cons_of_neg hc, List.dropWhile_cons_of_neg hc,
        List.cons_append]

theorem rstripWs_eq_nil_iff {l : List Char} :
    rstripWs l = [] ↔ ∀ c ∈ l, pyIsSpace c = true := by
  unfold rstripWs
  constructor
  · intro h c hc
    have h2 : l.reverse.dropWhile pyIsSpace = [] := by
      have := congrArg List.reverse h
      simpa using this
    exact List.dropWhile_eq_nil_iff.mp h2 c (List.mem_reverse.mpr hc)
  · intro h
    have h2 : l.reverse.dropWhile pyIsSpace = [] :=
      List.dropWhile_eq_nil_iff.mpr (fun c hc => h c (List.mem_reverse.mp hc))
    simp [h2]

theorem rstripWs_no_ws {l : List Char} (h : ∀ c ∈ l, pyIsSpace c = false) :
    rstripWs l = l := by
  unfold rstripWs
  rw [dropWhile_all_neg (fun c hc => h c (List.mem_reverse.mp hc)), List.reverse_reverse]

theorem rstripWs_append_nil {l₁ l₂ : List Char} (h : rstripWs l₂ = []) :
    rstripWs (l₁ ++ l₂) = rstripWs l₁ := by
  have h2 : ∀ c ∈ l₂.reverse, pyIsSpace c = true :=
    fun c hc => rstripWs_eq_nil_iff.mp h c (List.mem_reverse.mp hc)
  unfold rstripWs
  rw [List.reverse_append, dropWhile_append_all _ _ h2]

theorem rstripWs_append_ne {l₁ l₂ : List Char} (h : rstripWs l₂ ≠ []) :
    rstripWs (l₁ ++ l₂) = l₁ ++ rstripWs l₂ := by
  have h2 : l₂.reverse.dropWhile pyIsSpace ≠ [] := by
    intro hh
    exact h (by simp [rstripWs, hh])
  unfold rstripWs
  rw [List.reverse_append, dropWhile_append_ne _ _ h2, List.reverse_append,
    List.reverse_reverse]

theorem not_space_of_no_ws {l : List Char} (h : ∀ c ∈ l, pyIsSpace c = false) :
    ' ' ∉ l :=
  fun hm => absurd (h ' ' hm) (by decide)

theorem splitFirst_not_mem {sep : Char} :
    ∀ {l : List Char}, sep ∉ l → splitFirst sep l = none := by
  intro l
  induction l with
  | nil => intro _; rfl
  | cons c cs ih =>
    intro h
    have hne : ¬ c = sep := fun hc => h (hc ▸ List.mem_cons_self c cs)
    simp [splitFirst, hne, ih (fun hm => h (List.mem_cons_of_mem c hm))]

theorem splitFirst_append {sep : Char} :
    ∀ (l₁ l₂ : List Char), sep ∉ l₁ →
      splitFirst sep (l₁ ++ sep :: l₂) = some (l₁, l₂)
  | [], l₂, _ => by simp [splitFirst]
  | c :: cs, l₂, h => by
    have hne : ¬ c = sep := fun hc => h (hc ▸ List.mem_cons_self c cs)
    simp [splitFirst, hne, splitFirst_append cs l₂ (fun hm => h (List.mem_cons_of_mem c hm))]

/-- Stripping then splitting a command line `<verb> <rest>` whose verb has no
whitespace yields the verb followed by what `tailParts` makes of the rest. -/
theorem parse_verb_cmd (v rest : List Char) (hv0 : v ≠ [])
    (hvw : ∀ c ∈ v, pyIsSpace c = false) :
    pySplit2 (pyStrip (v ++ ' ' :: rest)) = v :: tailParts rest := by
  have hvs : ' ' ∉ v := not_space_of_no_ws hvw
  have hl : (v ++ ' ' :: rest).dropWhile pyIsSpace = v ++ ' ' :: rest := by
    cases v with
    | nil => exact absurd rfl hv0
    | cons c cs =>
      rw [List.cons_append]
      exact List.dropWhile_cons_of_neg (by simp [hvw c (List.mem_cons_self c cs)])
  unfold pyStrip
  rw [hl]
  by_cases hr : rstripWs rest = []
  · have hsp : rstripWs (' ' :: rest) = [] := by
      rw [rstripWs_eq_nil_iff] at hr ⊢
      intro c hc
      rcases List.mem_cons.mp hc with h1 | h2
      · subst h1; decide
      · exact hr c h2
    have hstrip : rstripWs (v ++ ' ' :: rest) = v := by
      rw [show v ++ ' ' :: rest = v ++ (' ' :: rest) from rfl, rstripWs_append_nil hsp,
        rstripWs_no_ws hvw]
    rw [hstrip]
    simp [pySplit2, splitFirst_not_mem hvs, tailParts, hr]
  · have hsp : rstripWs (' ' :: rest) = ' ' :: rstripWs rest := by
      simpa using (@rstripWs_append_ne [' '] rest hr)
    have hspn : rstripWs (' ' :: rest) ≠ [] := by rw [hsp]; simp
    have hstrip : rstripWs (v ++ ' ' :: rest) = v ++ ' ' :: rstripWs rest := by
      rw [show v ++ ' ' :: rest = v ++ (' ' :: rest) from rfl, rstripWs_append_ne hspn, hsp]
    rw [hstrip]
    unfold pySplit2
    rw [splitFirst_append v (rstripWs rest) hvs]
    unfold tailParts
    rw [if_neg hr]
    cases hsf : splitFirst ' ' (rstripWs rest) with
    | none => simp [hsf]
    | some pr => cases pr; simp [hsf]

theorem tailParts_single {F : List Char} (hF0 : F ≠ [])
    (hFw : ∀ c ∈ F, pyIsSpace c = false) : tailParts F = [F] := by
  unfold tailParts
  rw [rstripWs_no_ws hFw, if_neg hF0, splitFirst_not_mem (not_space_of_no_ws hFw)]

theorem tailParts_two {F p : List Char} (hFw : ∀ c ∈ F, pyIsSpace c = false)
    (hp : rstripWs p ≠ []) : tailParts (F ++ ' ' :: p) = [F, rstripWs p] := by
  have h2 : rstripWs (' ' :: p) = ' ' :: rstripWs p := by
    simpa using (@rstripWs_append_ne [' '] p hp)
  have h3 : rstripWs (' ' :: p) ≠ [] := by rw [h2]; simp
  have hR : rstripWs (F ++ ' ' :: p) = F ++ ' ' :: rstripWs p := by
    rw [show F ++ ' ' :: p = F ++ (' ' :: p) from rfl, rstripWs_append_ne h3, h2]
  unfold tailParts
  rw [hR, if_neg (by simp), splitFirst_append F (rstripWs p) (not_space_of_no_ws hFw)]

-- ===== base64 lemmas =====

theorem decChar_encChar : ∀ n : Nat, n < 64 → decChar (encChar n) = some n := by decide

theorem encChar_ne_pad : ∀ n : Nat, n < 64 → encChar n ≠ '=' := by decide

theorem pyIsSpace_encChar (n : Nat) : pyIsSpace (encChar n) = false := by
  by_cases h : n < 64
  · exact (by decide : ∀ m : Nat, m < 64 → pyIsSpace (encChar m) = false) n h
  · unfold encChar
    rw [List.getD_eq_default]
    · decide
    · have h64 : b64alphabet.length = 64 := by decide
      omega

/-- Decoding inverts encoding on byte strings (all entries below 256). -/
theorem b64decode_encode : ∀ (B : List Nat), (∀ b ∈ B, b < 256) →
    b64decode (b64encode B) = some B
  | [], _ => by simp [b64encode, b64decode]
  | [a], h => by
    have ha : a < 256 := h a (by simp)
    have h1 : a / 4 < 64 := by omega
    have h2 : a % 4 * 16 < 64 := by omega
    simp [b64encode, b64decode, decChar_encChar _ h1, decChar_encChar _ h2]
    all_goals omega
  | [a, b], h => by
    have ha : a < 256 := h a (by simp)
    have hb : b < 256 := h b (by simp)
    have h1 : a / 4 < 64 := by omega
    have h2 : a % 4 * 16 + b / 16 < 64 := by omega
    have h3 : b % 16 * 4 < 64 := by omega
    simp [b64encode, b64decode, decChar_encChar _ h1, decChar_encChar _ h2,
      decChar_encChar _ h3, encChar_ne_pad _ h3]
    all_goals omega
  | a :: b :: c :: rest, h => by
    have ha : a < 256 := h a (by simp)
    have hb : b < 256 := h b (by simp)
    have hc : c < 256 := h c (by simp)
    have h1 : a / 4 < 64 := by omega
    have h2 : a % 4 * 16 + b / 16 < 64 := by omega
    have h3 : b % 16 * 4 + c / 64 < 64 := by omega
    have h4 : c % 64 < 64 := by omega
    have ih := b64decode_encode rest (fun x hx => h x (by simp [hx]))
    simp [b64encode, b64decode, decChar_encChar _ h1, decChar_encChar _ h2,
      decChar_encChar _ h3, decChar_encChar _ h4, encChar_ne_pad _ h3,
      encChar_ne_pad _ h4, ih]
    all_goals omega

theorem b64encode_not_space : ∀ (B : List Nat), ∀ c ∈ b64encode B, pyIsSpace c = false
  | [], _, hc => by simp [b64encode] at hc
  | [a], x, hx => by
    simp only [b64encode, List.mem_cons, List.not_mem_nil, or_false] at hx
    rcases hx with h | h | h | h <;> subst h <;>
      first | exact pyIsSpace_encChar _ | decide
  | [a, b], x, hx => by
    simp only [b64encode, List.mem_cons, List.not_mem_nil, or_false] at hx
    rcases hx with h | h | h | h <;> subst h <;>
      first | exact pyIsSpace_encChar _ | decide
  | a :: b :: c :: rest, x, hx => by
    simp only [b64encode, List.mem_cons] at hx
    rcases hx with h | h | h | h | h
    · subst h; exact pyIsSpace_encChar _
    · subst h; exact pyIsSpace_encChar _
    · subst h; exact pyIsSpace_encChar _
    · subst h; exact pyIsSpace_encChar _
    · exact b64encode_not_space rest x h

theorem b64encode_ne_nil : ∀ (B : List Nat), B ≠ [] → b64encode B ≠ []
  | [], h => absurd rfl h
  | [_], _ => by simp [b64encode]
  | [_, _], _ => by simp [b64encode]
  | _ :: _ :: _ :: _, _ => by simp [b64encode]

-- ===== validator lemmas =====

theorem hasSub_iff (sub : List Char) : ∀ (s : List Char), hasSub sub s = true ↔ sub <:+: s
  | [] => by simp [hasSub, List.infix_nil]
  | c :: cs => by
    simp [hasSub, List.isPrefixOf_iff_prefix, hasSub_iff sub cs, List.infix_cons_iff]

theorem singleton_infix_iff {a : Char} {l : List Char} : [a] <:+: l ↔ a ∈ l := by
  constructor
  · rintro ⟨s, t, rfl⟩
    simp
  · intro h
    rcases List.append_of_mem h with ⟨s, t, rfl⟩
    exact ⟨s, t, by simp⟩

theorem valid_false_iff (f : List Char) :
    is_valid_filename f = false ↔
      f = [] ∨ 255 < f.length ∨ ∃ d ∈ dangerous_chars, d <:+: f := by
  unfold is_valid_filename
  split_ifs with h1 h2 h3
  · simp [h1]
  · have hx : ∃ d ∈ dangerous_chars, d <:+: f := by
      rcases List.any_eq_true.mp h2 with ⟨d, hd, hsub⟩
      exact ⟨d, hd, (hasSub_iff d f).mp hsub⟩
    simp [hx]
  · simp [h3]
  · have hno : ∀ d ∈ dangerous_chars, ¬ d <:+: f := by
      intro d hd hi
      exact h2 (List.any_eq_true.mpr ⟨d, hd, (hasSub_iff d f).mpr hi⟩)
    have hlen : ¬ (255 < f.length) := by omega
    simp [h1, hlen, hno]
    exact hno

theorem valid_props {f : List Char} (h : is_valid_filename f = true) :
    f ≠ [] ∧ '/' ∉ f ∧ '\\' ∉ f ∧ ¬ (['.', '.'] <:+: f) ∧ f ≠ ['.', '.'] := by
  have hnd : ¬ (f = [] ∨ 255 < f.length ∨ ∃ d ∈ dangerous_chars, d <:+: f) := by
    intro hc
    have := (valid_false_iff f).mpr hc
    simp [h] at this
  push_neg at hnd
  obtain ⟨h1, _, h3⟩ := hnd
  refine ⟨h1, ?_, ?_, h3 ['.', '.'] (by simp [dangerous_chars]), ?_⟩
  · exact fun hm => h3 ['/'] (by simp [dangerous_chars]) (singleton_infix_iff.mpr hm)
  · exact fun hm => h3 ['\\'] (by simp [dangerous_chars]) (singleton_infix_iff.mpr hm)
  · intro he
    exact h3 ['.', '.'] (by simp [dangerous_chars]) (he ▸ List.infix_refl _)

-- ===== path lemmas =====

theorem joinPath_eq {s f : List Char} (hf0 : f ≠ []) (hf : '/' ∉ f)
    (hs0 : s ≠ []) (hs1 : s.getLast? ≠ some '/') :
    joinPath s f = s ++ '/' :: f := by
  unfold joinPath
  have h1 : f.take 1 ≠ ['/'] := by
    cases f with
    | nil => exact absurd rfl hf0
    | cons c cs =>
      rw [show (c :: cs).take 1 = [c] from rfl]
      intro hc
      have : c = '/' := by simpa using hc
      exact hf (this ▸ List.mem_cons_self c cs)
  rw [if_neg h1, if_neg (fun hor => hor.elim hs0 hs1)]

theorem dirLike_join {s f : List Char} (hf0 : f ≠ []) (hf : '/' ∉ f)
    (hdot : f ≠ ['.']) (hdd : f ≠ ['.', '.']) :
    dirLike (s ++ '/' :: f) = false := by
  have hrevp : (s ++ '/' :: f).reverse = f.reverse ++ '/' :: s.reverse := by
    simp [List.reverse_append]
  rcases hrevf : f.reverse with _ | ⟨c, r⟩
  · exact absurd (by simpa using congrArg List.reverse hrevf) hf0
  have hcf : c ∈ f := List.mem_reverse.mp (by rw [hrevf]; exact List.mem_cons_self c r)
  have hrf : ∀ d ∈ r, d ∈ f := by
    intro d hd
    exact List.mem_reverse.mp (by rw [hrevf]; exact List.mem_cons_of_mem c hd)
  have g1 : s ++ '/' :: f ≠ [] := by simp
  have g2 : s ++ '/' :: f ≠ ['.'] := by
    intro he
    have : '/' ∈ ['.'] := he ▸ (by simp : '/' ∈ s ++ '/' :: f)
    simp at this
  have g3 : s ++ '/' :: f ≠ ['.', '.'] := by
    intro he
    have : '/' ∈ ['.', '.'] := he ▸ (by simp : '/' ∈ s ++ '/' :: f)
    simp at this
  have g4 : (s ++ '/' :: f).getLast? ≠ some '/' := by
    rw [← List.head?_reverse, hrevp, hrevf]
    simp only [List.cons_append, List.head?_cons]
    intro hc
    have : c = '/' := by simpa using hc
    exact hf (this ▸ hcf)
  have g5 : ¬ (['/', '.'] <:+ s ++ '/' :: f) := by
    rintro ⟨t, ht⟩
    have hrev2 := congrArg List.reverse ht
    rw [List.reverse_append, hrevp, hrevf] at hrev2
    simp only [List.reverse_cons, List.reverse_nil, List.nil_append, List.cons_append,
      List.append_assoc] at hrev2
    cases r with
    | nil =>
      injection hrev2 with hc hrest
      apply hdot
      have h5 : f.reverse = ['.'] := by rw [hrevf, ← hc]
      simpa using congrArg List.reverse h5
    | cons d r' =>
      injection hrev2 with hc hrest
      injection hrest with hd hrest2
      refine hf ?_
      rw [hd]
      exact hrf d (List.mem_cons_self d r')
  have g6 : ¬ (['/', '.', '.'] <:+ s ++ '/' :: f) := by
    rintro ⟨t, ht⟩
    have hrev2 := congrArg List.reverse ht
    rw [List.reverse_append, hrevp, hrevf] at hrev2
    simp only [List.reverse_cons, List.reverse_nil, List.nil_append, List.cons_append,
      List.append_assoc] at hrev2
    cases r with
    | nil =>
      injection hrev2 with hc hrest
      injection hrest with hd hrest2
      exact (by decide : ('.' : Char) ≠ '/') hd
    | cons d r' =>
      cases r' with
      | nil =>
        injection hrev2 with hc hrest
        injection hrest with hd hrest2
        injection hrest2 with he hrest3
        refine hdd ?_
        have h6 : f.reverse = ['.', '.'] := by rw [hrevf, ← hc, ← hd]
        simpa using congrArg List.reverse h6
      | cons e r'' =>
        injection hrev2 with hc hrest
        injection hrest with hd hrest2
        injection hrest2 with he hrest3
        have : e ∈ f := hrf e (List.mem_cons_of_mem d (List.mem_cons_self e r''))
        exact hf (he ▸ this)
  unfold dirLike
  simp only [Bool.or_eq_false_iff, beq_eq_false_iff_ne, ne_eq]
  refine ⟨⟨⟨⟨⟨g1, g2⟩, g3⟩, ?_⟩, ?_⟩, ?_⟩
  · simpa using g4
  · rw [Bool.eq_false_iff]
    intro hs
    exact g5 ((List.isSuffixOf_iff_suffix).mp hs)
  · rw [Bool.eq_false_iff]
    intro hs
    exact g6 ((List.isSuffixOf_iff_suffix).mp hs)

-- ===== filesystem lemmas =====

theorem filter_ne_key (fs : FS) (p : List Char) :
    ∀ e ∈ fs.filter (fun e => !(e.1 == p)), e.1 ≠ p := by
  intro e he
  have h2 := (List.mem_filter.mp he).2
  simpa using h2

theorem find?_key_append_singleton : ∀ (l : FS) (p : List Char) (b : List Nat),
    (∀ e ∈ l, e.1 ≠ p) → (l ++ [(p, b)]).find? (fun e => e.1 == p) = some (p, b)
  | [], p, b, _ => by simp
  | e :: t, p, b, h => by
    have hne : ¬ (e.1 == p) = true := by simp [h e (List.mem_cons_self e t)]
    rw [List.cons_append,
      show List.find? (fun e => e.1 == p) (e :: (t ++ [(p, b)])) =
        List.find? (fun e => e.1 == p) (t ++ [(p, b)]) from List.find?_cons_of_neg _ hne]
    exact find?_key_append_singleton t p b (fun x hx => h x (List.mem_cons_of_mem e hx))

theorem fsLookup_fsWrite_self (fs : FS) (p : List Char) (b : List Nat) :
    fsLookup (fsWrite fs p b) p = some b := by
  unfold fsLookup fsWrite
  rw [find?_key_append_singleton _ p b (filter_ne_key fs p)]
  rfl

theorem fsLookup_fsRemove_self (fs : FS) (p : List Char) :
    fsLookup (fsRemove fs p) p = none := by
  unfold fsLookup fsRemove
  rw [List.find?_eq_none.mpr]
  · rfl
  · intro e he
    simp [filter_ne_key fs p e he]

-- ===== listdir lemmas =====

theorem listdir_props {fs : FS} {root n : List Char} (h : n ∈ listdir fs root) :
    n ≠ [] ∧ '/' ∉ n ∧ n ≠ ['.'] ∧ n ≠ ['.', '.'] := by
  unfold listdir at h
  rcases List.mem_filterMap.mp h with ⟨e, _, he⟩
  by_cases h1 : (root ++ ['/']).isPrefixOf e.1
  · rw [if_pos h1] at he
    by_cases h2 : e.1.drop (root.length + 1) = [] ∨
        (e.1.drop (root.length + 1)).contains '/' = true ∨
        e.1.drop (root.length + 1) = ['.'] ∨ e.1.drop (root.length + 1) = ['.', '.']
    · rw [if_pos h2] at he
      exact absurd he (by simp)
    · rw [if_neg h2] at he
      have hn : e.1.drop (root.length + 1) = n := Option.some.inj he
      push_neg at h2
      rw [hn] at h2
      obtain ⟨g1, g2, g3, g4⟩ := h2
      refine ⟨g1, ?_, g3, g4⟩
      intro hm
      exact g2 (by simpa using List.elem_eq_true_of_mem hm)
  · rw [if_neg h1] at he
    exact absurd he (by simp)

-- ===== withinRoot lemmas =====

theorem withinRoot_join_of_props {s n : List Char} (hn0 : n ≠ []) (hn : '/' ∉ n)
    (hnd : n ≠ ['.', '.']) (hs0 : s ≠ []) (hs1 : s.getLast? ≠ some '/') :
    withinRoot s (joinPath s n) := by
  rw [joinPath_eq hn0 hn hs0 hs1]
  exact Or.inr ⟨n, hn0, hn, hnd, rfl⟩

theorem withinRoot_join_valid {s f : List Char} (hf : is_valid_filename f = true)
    (hs0 : s ≠ []) (hs1 : s.getLast? ≠ some '/') :
    withinRoot s (joinPath s f) := by
  obtain ⟨h1, h2, _, _, h5⟩ := valid_props hf
  exact withinRoot_join_of_props h1 h2 h5 hs0 hs1

theorem withinRoot_join_listdir {s n : List Char} {fs : FS}
    (h : n ∈ listdir fs s) (hs0 : s ≠ []) (hs1 : s.getLast? ≠ some '/') :
    withinRoot s (joinPath s n) := by
  obtain ⟨h1, h2, _, h4⟩ := listdir_props h
  exact withinRoot_join_of_props h1 h2 h4 hs0 hs1

-- ===== handler status lemmas (every branch yields OK or ERROR) =====

theorem handle_upload_status (storage : List Char) (io : Option String) (fs : FS)
    (parts : List (List Char)) :
    (handle_upload storage io fs parts).resp.status = "OK" ∨
    (handle_upload storage io fs parts).resp.status = "ERROR" := by
  unfold handle_upload
  repeat' split
  all_goals simp [errResp]

theorem handle_get_status (storage : List Char) (io : Option String) (fs : FS)
    (parts : List (List Char)) :
    (handle_get storage io fs parts).resp.status = "OK" ∨
    (handle_get storage io fs parts).resp.status = "ERROR" := by
  unfold handle_get
  repeat' split
  all_goals simp [errResp]

theorem handle_list_status (storage : List Char) (io : Option String) (fs : FS) :
    (handle_list storage io fs).resp.status = "OK" ∨
    (handle_list storage io fs).resp.status = "ERROR" := by
  unfold handle_list
  repeat' split
  all_goals simp [errResp]

theorem handle_delete_status (storage : List Char) (io : Option String) (fs : FS)
    (parts : List (List Char)) :
    (handle_delete storage io fs parts).resp.status = "OK" ∨
    (handle_delete storage io fs parts).resp.status = "ERROR" := by
  unfold handle_delete
  repeat' split
  all_goals simp [errResp]

theorem prosesParts_status (storage : List Char) (io : Option String) (fs : FS)
    (parts : List (List Char)) :
    (prosesParts storage io fs parts).resp.status = "OK" ∨
    (prosesParts storage io fs parts).resp.status = "ERROR" := by
  unfold prosesParts
  cases parts with
  | nil => right; rfl
  | cons p0 rest =>
    dsimp only
    split_ifs
    · exact handle_upload_status _ _ _ _
    · exact handle_get_status _ _ _ _
    · exact handle_list_status _ _ _
    · exact handle_delete_status _ _ _ _
    · right; rfl

-- ===== handler access lemmas =====

theorem handle_upload_accesses (storage : List Char) (io : Option String) (fs : FS)
    (parts : List (List Char)) :
    ∀ a ∈ (handle_upload storage io fs parts).accesses,
      ∃ f, is_valid_filename f = true ∧ a = FAccess.writeA (joinPath storage f) := by
  unfold handle_upload
  split_ifs with h1 h2
  · simp
  · simp
  · split
    · simp
    · split
      all_goals
        intro a ha
        simp at ha
        subst ha
        refine ⟨_, ?_, rfl⟩
        simpa using h2

theorem handle_get_accesses (storage : List Char) (io : Option String) (fs : FS)
    (parts : List (List Char)) :
    ∀ a ∈ (handle_get storage io fs parts).accesses,
      ∃ f, is_valid_filename f = true ∧
        (a = FAccess.statA (joinPath storage f) ∨ a = FAccess.readA (joinPath storage f)) := by
  unfold handle_get
  split_ifs with h1 h2 h3
  · simp
  · simp
  · intro a ha
    simp at ha
    subst ha
    refine ⟨_, ?_, Or.inl rfl⟩
    simpa using h2
  · split
    all_goals
      intro a ha
      simp at ha
      rcases ha with ha | ha <;> subst ha
      · refine ⟨_, ?_, Or.inl rfl⟩
        simpa using h2
      · refine ⟨_, ?_, Or.inr rfl⟩
        simpa using h2

theorem handle_delete_accesses (storage : List Char) (io : Option String) (fs : FS)
    (parts : List (List Char)) :
    ∀ a ∈ (handle_delete storage io fs parts).accesses,
      ∃ f, is_valid_filename f = true ∧
        (a = FAccess.statA (joinPath storage f) ∨ a = FAccess.removeA (joinPath storage f)) := by
  unfold handle_delete
  split_ifs with h1 h2 h3
  · simp
  · simp
  · intro a ha
    simp at ha
    subst ha
    refine ⟨_, ?_, Or.inl rfl⟩
    simpa using h2
  · split
    all_goals
      intro a ha
      simp at ha
      rcases ha with ha | ha <;> subst ha
      · refine ⟨_, ?_, Or.inl rfl⟩
        simpa using h2
      · refine ⟨_, ?_, Or.inr rfl⟩
        simpa using h2

theorem handle_list_accesses (storage : List Char) (io : Option String) (fs : FS) :
    ∀ a ∈ (handle_list storage io fs).accesses,
      a = FAccess.listA storage ∨
      ∃ n, n ∈ listdir fs storage ∧ a = FAccess.statA (joinPath storage n) := by
  unfold handle_list
  split
  · intro a ha
    simp at ha
    subst ha
    exact Or.inl rfl
  · intro a ha
    simp only [List.mem_cons] at ha
    rcases ha with ha | ha
    · exact Or.inl ha
    · rcases List.mem_map.mp ha with ⟨n, hn, hna⟩
      exact Or.inr ⟨n, hn, hna.symm⟩

-- ===== success-inversion and dispatch lemmas =====

theorem os_remove_ok {fs : FS} {p : List Char} {fs2 : FS}
    (h : os_remove fs p = Except.ok fs2) :
    dirLike p = false ∧ (∃ b, fsLookup fs p = some b) ∧ fs2 = fsRemove fs p := by
  unfold os_remove at h
  by_cases hd : dirLike p = true
  · rw [if_pos hd] at h
    exact absurd h (by simp)
  · rw [if_neg hd] at h
    cases hl : fsLookup fs p with
    | none => rw [hl] at h; exact absurd h (by simp)
    | some b =>
      rw [hl] at h
      have h2 : fsRemove fs p = fs2 := by simpa using h
      exact ⟨by simpa using hd, ⟨b, rfl⟩, h2.symm⟩

theorem exists_after_remove {fs : FS} {p : List Char} (hd : dirLike p = false) :
    os_path_exists (fsRemove fs p) p = false := by
  unfold os_path_exists
  rw [hd, fsLookup_fsRemove_self]
  rfl

theorem exists_after_write (fs : FS) (p : List Char) (b : List Nat) :
    os_path_exists (fsWrite fs p b) p = true := by
  unfold os_path_exists
  rw [fsLookup_fsWrite_self]
  simp

theorem openRead_after_write {fs : FS} {p : List Char} {b : List Nat}
    (hd : dirLike p = false) : openRead (fsWrite fs p b) p = Except.ok b := by
  unfold openRead
  rw [if_neg (by simp [hd]), fsLookup_fsWrite_self]

theorem prosesParts_upload (storage : List Char) (io : Option String) (fs : FS)
    (tp : List (List Char)) :
    prosesParts storage io fs ("UPLOAD".data :: tp) =
      handle_upload storage io fs ("UPLOAD".data :: tp) := by
  unfold prosesParts
  dsimp only
  rw [if_pos (by decide)]

theorem prosesParts_get (storage : List Char) (io : Option String) (fs : FS)
    (tp : List (List Char)) :
    prosesParts storage io fs ("GET".data :: tp) =
      handle_get storage io fs ("GET".data :: tp) := by
  unfold prosesParts
  dsimp only
  rw [if_neg (by decide), if_pos (by decide)]

theorem prosesParts_list (storage : List Char) (io : Option String) (fs : FS)
    (tp : List (List Char)) :
    prosesParts storage io fs ("LIST".data :: tp) = handle_list storage io fs := by
  unfold prosesParts
  dsimp only
  rw [if_neg (by decide), if_neg (by decide), if_pos (by decide)]

theorem prosesParts_delete (storage : List Char) (io : Option String) (fs : FS)
    (tp : List (List Char)) :
    prosesParts storage io fs ("DELETE".data :: tp) =
      handle_delete storage io fs ("DELETE".data :: tp) := by
  unfold prosesParts
  dsimp only
  rw [if_neg (by decide), if_neg (by decide), if_neg (by decide), if_pos (by decide)]

theorem handle_upload_head_irrel (storage : List Char) (io : Option String) (fs : FS)
    (p0 q0 : List Char) (rest : List (List Char)) :
    handle_upload storage io fs (p0 :: rest) = handle_upload storage io fs (q0 :: rest) := by
  unfold handle_upload
  simp only [List.length_cons, List.getD_cons_succ]

theorem handle_get_head_irrel (storage : List Char) (io : Option String) (fs : FS)
    (p0 q0 : List Char) (rest : List (List Char)) :
    handle_get storage io fs (p0 :: rest) = handle_get storage io fs (q0 :: rest) := by
  unfold handle_get
  simp only [List.length_cons, List.getD_cons_succ]

theorem handle_delete_head_irrel (storage : List Char) (io : Option String) (fs : FS)
    (p0 q0 : List Char) (rest : List (List Char)) :
    handle_delete storage io fs (p0 :: rest) = handle_delete storage io fs (q0 :: rest) := by
  unfold handle_delete
  simp only [List.length_cons, List.getD_cons_succ]

-- ===== claim theorems =====

/-- C4: for every input command string (and any injected I/O failure),
`proses_string` returns a response record whose status field is OK or ERROR.
The embedding is a total function: every fallible step of the code (missing
arguments, invalid base64, absent files, I/O failures via `io`) is a branch
that produces a response, so no exception escapes `proses_string`; the
`json.dumps` serialization of the returned record is abstracted away. -/
theorem c4_status_total (storage : String) (io : Option String) (fs : FS) (s : String) :
    (proses_string storage io fs s).resp.status = "OK" ∨
    (proses_string storage io fs s).resp.status = "ERROR" :=
  prosesParts_status storage.data io fs (pySplit2 (pyStrip s.data))

/-- C9: the filename validator is a pure total function returning false
exactly for the empty name, a name longer than 255 characters, or a name
containing one of the ten denylisted substrings, and true for every other
name. -/
theorem c9_validator_characterization (f : List Char) :
    is_valid_filename f = false ↔
      f = [] ∨ 255 < f.length ∨
      (['.', '.'] <:+: f) ∨ (['/'] <:+: f) ∨ (['\\'] <:+: f) ∨ ([':'] <:+: f) ∨
      (['*'] <:+: f) ∨ (['?'] <:+: f) ∨ (['"'] <:+: f) ∨ (['<'] <:+: f) ∨
      (['>'] <:+: f) ∨ (['|'] <:+: f) := by
  rw [valid_false_iff]
  simp [dangerous_chars]

/-- C10: `split(' ', 2)` never returns an empty list, so the branch of
`proses_string` answering "Empty command" is unreachable; an empty or
whitespace-only frame falls through to the unknown-verb branch and yields
ERROR "Unknown command: " with an empty verb, leaving the storage unchanged. -/
theorem c10_empty_branch_unreachable (storage : String) (io : Option String) (fs : FS) :
    (∀ l : List Char, pySplit2 l ≠ []) ∧
    (∀ s : String, (∀ c ∈ s.data, pyIsSpace c = true) →
      (proses_string storage io fs s).resp = errResp ("Unknown command: ".data) ∧
      (proses_string storage io fs s).resp.data ≠ "Empty command".data ∧
      (proses_string storage io fs s).fs = fs) := by
  constructor
  · intro l
    unfold pySplit2
    cases h1 : splitFirst ' ' l with
    | none => simp [h1]
    | some pr =>
      cases pr with
      | mk a r =>
        cases h2 : splitFirst ' ' r with
        | none => simp [h1, h2]
        | some q => cases q; simp [h1, h2]
  · intro s hs
    have h1 : s.data.dropWhile pyIsSpace = [] :=
      List.dropWhile_eq_nil_iff.mpr (fun c hc => hs c hc)
    have h2 : pyStrip s.data = [] := by
      unfold pyStrip
      rw [h1]
      rfl
    unfold proses_string
    rw [h2]
    refine ⟨rfl, ?_, rfl⟩
    have hresp : (prosesParts storage.data io fs (pySplit2 [])).resp
        = errResp ("Unknown command: ".data ++ pyUpper []) := rfl
    rw [hresp]
    decide

/-- C10 witness: the empty frame takes the unknown-verb branch. -/
theorem c10_witness :
    (proses_string "files" none [] "").resp = errResp ("Unknown command: ".data) ∧
    (proses_string "files" none [] "").resp.data ≠ "Empty command".data ∧
    (proses_string "files" none [] "").fs = ([] : FS) :=
  (c10_empty_branch_unreachable "files" none []).2 "" (by decide)

/-- C7: verb dispatch depends only on the uppercased first token (verbs match
case-insensitively), and a command whose uppercased verb is none of UPLOAD,
GET, LIST, DELETE yields ERROR with message "Unknown command: " followed by
the uppercased verb text.  (`pyUpper` models `str.upper()` on the ASCII verbs
this protocol uses.) -/
theorem c7_case_insensitive_unknown_verb (storage : String) (io : Option String) (fs : FS) :
    (∀ p0 q0 : List Char, ∀ rest : List (List Char),
      pyUpper p0 = pyUpper q0 →
      prosesParts storage.data io fs (p0 :: rest) =
        prosesParts storage.data io fs (q0 :: rest)) ∧
    (∀ s : String, ∀ p0 : List Char, ∀ rest : List (List Char),
      pySplit2 (pyStrip s.data) = p0 :: rest →
      pyUpper p0 ∉ [("UPLOAD").data, "GET".data, "LIST".data, "DELETE".data] →
      (proses_string storage io fs s).resp.status = "ERROR" ∧
      (proses_string storage io fs s).resp.data =
        "Unknown command: ".data ++ pyUpper p0) := by
  constructor
  · intro p0 q0 rest h
    unfold prosesParts
    dsimp only
    rw [h]
    split_ifs
    · exact handle_upload_head_irrel _ _ _ p0 q0 rest
    · exact handle_get_head_irrel _ _ _ p0 q0 rest
    · rfl
    · exact handle_delete_head_irrel _ _ _ p0 q0 rest
    · rfl
  · intro s p0 rest hparts hnmem
    unfold proses_string
    rw [hparts]
    unfold prosesParts
    dsimp only
    split_ifs with h1 h2 h3 h4
    · exact absurd (by rw [h1]; simp) hnmem
    · exact absurd (by rw [h2]; simp) hnmem
    · exact absurd (by rw [h3]; simp) hnmem
    · exact absurd (by rw [h4]; simp) hnmem
    · exact ⟨rfl, rfl⟩

/-- C7 witness: the frame "FOO bar" yields ERROR containing "FOO". -/
theorem c7_witness :
    (proses_string "files" none [] "FOO bar").resp.status = "ERROR" ∧
    (proses_string "files" none [] "FOO bar").resp.data =
      "Unknown command: ".data ++ pyUpper "FOO".data :=
  (c7_case_insensitive_unknown_verb "files" none []).2 "FOO bar" "FOO".data
    ["bar".data] (by decide) (by decide)

/-- C6: a frame is split on the first two space characters only (verb,
filename, remainder-as-payload), and an UPLOAD command line hands the entire
remainder after the second space to the upload handler as the single payload
argument, spaces included. -/
theorem c6_split_first_two_spaces (storage : String) (io : Option String) (fs : FS) :
    (∀ a b r : List Char, ' ' ∉ a → ' ' ∉ b →
      pySplit2 (a ++ ' ' :: (b ++ ' ' :: r)) = [a, b, r]) ∧
    (∀ F p : List Char, F ≠ [] → (∀ c ∈ F, pyIsSpace c = false) →
      p ≠ [] → rstripWs p = p →
      proses_string storage io fs (String.mk ("UPLOAD ".data ++ F ++ ' ' :: p)) =
        handle_upload storage.data io fs ["UPLOAD".data, F, p]) := by
  constructor
  · intro a b r ha hb
    simp [pySplit2, splitFirst_append a _ ha, splitFirst_append b r hb]
  · intro F p hF0 hFw hp0 hpr
    unfold proses_string
    rw [show (String.mk ("UPLOAD ".data ++ F ++ ' ' :: p)).data =
      "UPLOAD ".data ++ F ++ ' ' :: p from rfl]
    have hshape : "UPLOAD ".data ++ F ++ ' ' :: p =
        "UPLOAD".data ++ ' ' :: (F ++ ' ' :: p) := by
      simp
    rw [hshape, parse_verb_cmd _ _ (by decide) (by decide),
      tailParts_two hFw (by rw [hpr]; exact hp0), hpr]
    exact prosesParts_upload storage.data io fs [F, p]

/-- C6 witness: a payload containing spaces stays one argument. -/
theorem c6_witness :
    pySplit2 ("UPLOAD".data ++ ' ' :: ("f.txt".data ++ ' ' :: "hello world".data)) =
      ["UPLOAD".data, "f.txt".data, "hello world".data] ∧
    proses_string "files" none [] (String.mk ("UPLOAD ".data ++ "f.txt".data ++
        ' ' :: "hello world".data)) =
      handle_upload "files".data none [] ["UPLOAD".data, "f.txt".data, "hello world".data] :=
  ⟨(c6_split_first_two_spaces "files" none []).1 "UPLOAD".data "f.txt".data
      "hello world".data (by decide) (by decide),
   (c6_split_first_two_spaces "files" none []).2 "f.txt".data "hello world".data
      (by decide) (by decide) (by decide) (by decide)⟩

-- ===== C2: invalid filenames =====

theorem invalid_of_bad {f : List Char}
    (hbad : (['.', '.'] <:+: f) ∨ (['/'] <:+: f) ∨ (['\\'] <:+: f) ∨ 255 < f.length) :
    is_valid_filename f = false := by
  rw [valid_false_iff]
  rcases hbad with h | h | h | h
  · exact Or.inr (Or.inr ⟨['.', '.'], by simp [dangerous_chars], h⟩)
  · exact Or.inr (Or.inr ⟨['/'], by simp [dangerous_chars], h⟩)
  · exact Or.inr (Or.inr ⟨['\\'], by simp [dangerous_chars], h⟩)
  · exact Or.inr (Or.inl h)

theorem bad_ne_nil {f : List Char}
    (hbad : (['.', '.'] <:+: f) ∨ (['/'] <:+: f) ∨ (['\\'] <:+: f) ∨ 255 < f.length) :
    f ≠ [] := by
  intro he
  subst he
  rcases hbad with h | h | h | h
  · simp [List.infix_nil] at h
  · simp [List.infix_nil] at h
  · simp [List.infix_nil] at h
  · simp at h

/-- C2 counterexample: with an empty storage and the traversal argument
`../x`, the LIST verb answers OK (it ignores its arguments entirely), not
ERROR "Invalid filename" as the claim requires of all four verbs. -/
theorem c2_counterexample :
    (proses_string "files" none [] "LIST ../x").resp.status = "OK" := by decide

/-- C2 (amended): for a filename `f` free of whitespace that contains `..`,
`/` or `\` or is longer than 255 characters, the three filename-taking verbs
UPLOAD, GET and DELETE answer ERROR "Invalid filename", leave the filesystem
unchanged and touch no path; LIST ignores its arguments, answers OK and
performs no mutation (`p` is any whitespace-free nonempty payload, needed for
the UPLOAD line to carry three tokens). -/
theorem c2_invalid_filename_rejected (storage : String) (fs : FS) (f p : List Char)
    (hbad : (['.', '.'] <:+: f) ∨ (['/'] <:+: f) ∨ (['\\'] <:+: f) ∨ 255 < f.length)
    (hfw : ∀ c ∈ f, pyIsSpace c = false)
    (hp0 : p ≠ []) (hpw : ∀ c ∈ p, pyIsSpace c = false) :
    ((proses_string storage none fs (String.mk ("UPLOAD ".data ++ (f ++ ' ' :: p)))) =
      ⟨errResp "Invalid filename".data, fs, []⟩) ∧
    ((proses_string storage none fs (String.mk ("GET ".data ++ f))) =
      ⟨errResp "Invalid filename".data, fs, []⟩) ∧
    ((proses_string storage none fs (String.mk ("DELETE ".data ++ f))) =
      ⟨errResp "Invalid filename".data, fs, []⟩) ∧
    ((proses_string storage none fs (String.mk ("LIST ".data ++ f))).resp.status = "OK" ∧
      (proses_string storage none fs (String.mk ("LIST ".data ++ f))).fs = fs ∧
      ∀ a ∈ (proses_string storage none fs (String.mk ("LIST ".data ++ f))).accesses,
        a.isContent = false) := by
  have hinv : is_valid_filename f = false := invalid_of_bad hbad
  have hf0 : f ≠ [] := bad_ne_nil hbad
  have hu : proses_string storage none fs (String.mk ("UPLOAD ".data ++ (f ++ ' ' :: p))) =
      handle_upload storage.data none fs ["UPLOAD".data, f, p] := by
    unfold proses_string
    rw [show (String.mk ("UPLOAD ".data ++ (f ++ ' ' :: p))).data =
        "UPLOAD".data ++ ' ' :: (f ++ ' ' :: p) from by simp,
      parse_verb_cmd _ _ (by decide) (by decide),
      tailParts_two hfw (by rw [rstripWs_no_ws hpw]; exact hp0), rstripWs_no_ws hpw]
    exact prosesParts_upload storage.data none fs [f, p]
  have hg : proses_string storage none fs (String.mk ("GET ".data ++ f)) =
      handle_get storage.data none fs ["GET".data, f] := by
    unfold proses_string
    rw [show (String.mk ("GET ".data ++ f)).data = "GET".data ++ ' ' :: f from by simp,
      parse_verb_cmd _ _ (by decide) (by decide), tailParts_single hf0 hfw]
    exact prosesParts_get storage.data none fs [f]
  have hd : proses_string storage none fs (String.mk ("DELETE ".data ++ f)) =
      handle_delete storage.data none fs ["DELETE".data, f] := by
    unfold proses_string
    rw [show (String.mk ("DELETE ".data ++ f)).data = "DELETE".data ++ ' ' :: f from by simp,
      parse_verb_cmd _ _ (by decide) (by decide), tailParts_single hf0 hfw]
    exact prosesParts_delete storage.data none fs [f]
  have hl : proses_string storage none fs (String.mk ("LIST ".data ++ f)) =
      handle_list storage.data none fs := by
    unfold proses_string
    rw [show (String.mk ("LIST ".data ++ f)).data = "LIST".data ++ ' ' :: f from by simp,
      parse_verb_cmd _ _ (by decide) (by decide), tailParts_single hf0 hfw]
    exact prosesParts_list storage.data none fs [f]
  refine ⟨?_, ?_, ?_, ?_⟩
  · rw [hu]
    unfold handle_upload
    rw [if_neg (by simp), if_pos (by simp [hinv])]
  · rw [hg]
    unfold handle_get
    rw [if_neg (by simp), if_pos (by simp [hinv])]
  · rw [hd]
    unfold handle_delete
    rw [if_neg (by simp), if_pos (by simp [hinv])]
  · rw [hl]
    refine ⟨rfl, rfl, ?_⟩
    intro a ha
    rcases handle_list_accesses storage.data none fs a ha with h | ⟨n, _, h⟩ <;>
      subst h <;> rfl

/-- C2 witness: a concrete traversal name is rejected by UPLOAD, GET and
DELETE and ignored by LIST. -/
theorem c2_witness :
    ((proses_string "files" none [] (String.mk ("UPLOAD ".data ++
        ("../x".data ++ ' ' :: "QQ==".data)))) =
      ⟨errResp "Invalid filename".data, [], []⟩) ∧
    ((proses_string "files" none [] (String.mk ("GET ".data ++ "../x".data))) =
      ⟨errResp "Invalid filename".data, [], []⟩) ∧
    ((proses_string "files" none [] (String.mk ("DELETE ".data ++ "../x".data))) =
      ⟨errResp "Invalid filename".data, [], []⟩) ∧
    ((proses_string "files" none [] (String.mk ("LIST ".data ++ "../x".data))).resp.status = "OK" ∧
      (proses_string "files" none [] (String.mk ("LIST ".data ++ "../x".data))).fs = ([] : FS) ∧
      ∀ a ∈ (proses_string "files" none [] (String.mk ("LIST ".data ++ "../x".data))).accesses,
        a.isContent = false) :=
  c2_invalid_filename_rejected "files" [] "../x".data "QQ==".data
    (by decide) (by decide) (by decide) (by decide)

-- ===== C8: DELETE then GET =====

theorem handle_delete_ok {storage : List Char} {fs : FS} {parts : List (List Char)}
    (h : (handle_delete storage none fs parts).resp.status = "OK") :
    ¬ (parts.length < 2) ∧ is_valid_filename (parts.getD 1 []) = true ∧
    dirLike (joinPath storage (parts.getD 1 [])) = false ∧
    (handle_delete storage none fs parts).fs =
      fsRemove fs (joinPath storage (parts.getD 1 [])) := by
  unfold handle_delete at h ⊢
  by_cases h1 : parts.length < 2
  · rw [if_pos h1] at h
    exact absurd h (by simp [errResp])
  rw [if_neg h1] at h ⊢
  by_cases h2 : is_valid_filename (parts.getD 1 []) = true
  case neg =>
    have h2f : is_valid_filename (parts.getD 1 []) = false := by simpa using h2
    rw [if_pos (by rw [h2f]; rfl)] at h
    exact absurd h (by simp [errResp])
  rw [if_neg (by rw [h2]; decide)] at h ⊢
  by_cases h3 : os_path_exists fs (joinPath storage (parts.getD 1 [])) = true
  case neg =>
    have h3f : os_path_exists fs (joinPath storage (parts.getD 1 [])) = false := by
      simpa using h3
    rw [if_pos (by rw [h3f]; rfl)] at h
    exact absurd h (by simp [errResp])
  rw [if_neg (by rw [h3]; decide)] at h ⊢
  cases hrm : os_remove fs (joinPath storage (parts.getD 1 [])) with
  | error m =>
    rw [show ioOr none (os_remove fs (joinPath storage (parts.getD 1 []))) =
      Except.error m from by rw [hrm]; rfl] at h
    simp [errResp] at h
  | ok fs2 =>
    obtain ⟨hdl, _, hfs2⟩ := os_remove_ok hrm
    exact ⟨h1, h2, hdl, hfs2⟩

/-- C8: whatever the storage state, once DELETE of a valid filename F has
answered OK, a subsequent GET of F answers ERROR reporting the file as not
found. -/
theorem c8_delete_then_get (storage : String) (fs : FS) (F : List Char)
    (hvalid : is_valid_filename F = true)
    (hok : (proses_string storage none fs (String.mk ("DELETE ".data ++ F))).resp.status = "OK") :
    (proses_string storage none
        (proses_string storage none fs (String.mk ("DELETE ".data ++ F))).fs
        (String.mk ("GET ".data ++ F))).resp.status = "ERROR" ∧
    "File not found: ".data <+:
      (proses_string storage none
        (proses_string storage none fs (String.mk ("DELETE ".data ++ F))).fs
        (String.mk ("GET ".data ++ F))).resp.data := by
  have hwsD : pySplit2 (pyStrip ("DELETE".data ++ ' ' :: F)) =
      "DELETE".data :: tailParts F :=
    parse_verb_cmd _ _ (by decide) (by decide)
  have hwsG : pySplit2 (pyStrip ("GET".data ++ ' ' :: F)) = "GET".data :: tailParts F :=
    parse_verb_cmd _ _ (by decide) (by decide)
  have hd : proses_string storage none fs (String.mk ("DELETE ".data ++ F)) =
      handle_delete storage.data none fs ("DELETE".data :: tailParts F) := by
    unfold proses_string
    rw [show (String.mk ("DELETE ".data ++ F)).data = "DELETE".data ++ ' ' :: F from by simp,
      hwsD]
    exact prosesParts_delete storage.data none fs (tailParts F)
  have hg : ∀ fs2 : FS, proses_string storage none fs2 (String.mk ("GET ".data ++ F)) =
      handle_get storage.data none fs2 ("GET".data :: tailParts F) := by
    intro fs2
    unfold proses_string
    rw [show (String.mk ("GET ".data ++ F)).data = "GET".data ++ ' ' :: F from by simp, hwsG]
    exact prosesParts_get storage.data none fs2 (tailParts F)
  rw [hd] at hok
  obtain ⟨hlen, hval, hdirl, hfs⟩ := handle_delete_ok hok
  rw [hd, hg, hfs]
  simp only [List.getD_cons_succ] at hval hdirl ⊢
  unfold handle_get
  rw [if_neg (by simp only [List.length_cons] at hlen ⊢; omega),
    if_neg (by rw [List.getD_cons_succ, hval]; decide),
    if_pos (by rw [List.getD_cons_succ, exists_after_remove hdirl]; rfl)]
  exact ⟨rfl, List.prefix_append _ _⟩

/-- C8 witness: deleting a concrete stored file, then fetching it. -/
theorem c8_witness :
    is_valid_filename "a.txt".data = true ∧
    (proses_string "files" none [("files/a.txt".data, [1, 2, 3])]
        (String.mk ("DELETE ".data ++ "a.txt".data))).resp.status = "OK" ∧
    (proses_string "files" none
        (proses_string "files" none [("files/a.txt".data, [1, 2, 3])]
          (String.mk ("DELETE ".data ++ "a.txt".data))).fs
        (String.mk ("GET ".data ++ "a.txt".data))).resp.status = "ERROR" ∧
    "File not found: ".data <+:
      (proses_string "files" none
        (proses_string "files" none [("files/a.txt".data, [1, 2, 3])]
          (String.mk ("DELETE ".data ++ "a.txt".data))).fs
        (String.mk ("GET ".data ++ "a.txt".data))).resp.data := by
  refine ⟨by decide, by decide, ?_⟩
  exact c8_delete_then_get "files" [("files/a.txt".data, [1, 2, 3])] "a.txt".data
    (by decide) (by decide)

-- ===== C1: upload/get round trip =====

/-- C1 counterexample: the validator accepts the filename "a b", yet
processing `UPLOAD F base64(B)` with F = "a b" and B = [] (the command line
"UPLOAD a b " with its empty payload) answers ERROR, because the space inside
F shifts the token split and the trailing space is stripped. -/
theorem c1_counterexample :
    is_valid_filename "a b".data = true ∧
    (proses_string "files" none []
      (String.mk ("UPLOAD ".data ++ ("a b".data ++ ' ' :: b64encode [])))).resp.status =
      "ERROR" := by
  constructor
  · decide
  · decide

/-- C1 (amended): for every nonempty byte string B and validator-accepted
filename F that contains no whitespace and is not ".", with a storage root
that is nonempty and does not end in a separator, `UPLOAD F base64(B)`
followed by `GET F` answers OK twice, both responses carry
`file_size = len B`, and the GET response's `data_file` base64-decodes to
exactly B. -/
theorem c1_roundtrip (storage : String) (fs : FS) (B : List Nat) (F : List Char)
    (hB : ∀ b ∈ B, b < 256) (hB0 : B ≠ [])
    (hF : is_valid_filename F = true) (hFw : ∀ c ∈ F, pyIsSpace c = false)
    (hFdot : F ≠ ['.'])
    (hs0 : storage.data ≠ []) (hs1 : storage.data.getLast? ≠ some '/') :
    (proses_string storage none fs
        (String.mk ("UPLOAD ".data ++ (F ++ ' ' :: b64encode B)))).resp.status = "OK" ∧
    (proses_string storage none fs
        (String.mk ("UPLOAD ".data ++ (F ++ ' ' :: b64encode B)))).resp.file_size =
      some B.length ∧
    (proses_string storage none
        (proses_string storage none fs
          (String.mk ("UPLOAD ".data ++ (F ++ ' ' :: b64encode B)))).fs
        (String.mk ("GET ".data ++ F))).resp.status = "OK" ∧
    (proses_string storage none
        (proses_string storage none fs
          (String.mk ("UPLOAD ".data ++ (F ++ ' ' :: b64encode B)))).fs
        (String.mk ("GET ".data ++ F))).resp.file_size = some B.length ∧
    ∃ df, (proses_string storage none
        (proses_string storage none fs
          (String.mk ("UPLOAD ".data ++ (F ++ ' ' :: b64encode B)))).fs
        (String.mk ("GET ".data ++ F))).resp.data_file = some df ∧
      b64decode df = some B := by
  obtain ⟨hf0, hfsl, _, _, hfdd⟩ := valid_props hF
  have hencw : ∀ c ∈ b64encode B, pyIsSpace c = false := b64encode_not_space B
  have henc0 : b64encode B ≠ [] := b64encode_ne_nil B hB0
  have hdirl : dirLike (joinPath storage.data F) = false := by
    rw [joinPath_eq hf0 hfsl hs0 hs1]
    exact dirLike_join hf0 hfsl hFdot hfdd
  have hu : proses_string storage none fs
      (String.mk ("UPLOAD ".data ++ (F ++ ' ' :: b64encode B))) =
      handle_upload storage.data none fs ["UPLOAD".data, F, b64encode B] := by
    unfold proses_string
    rw [show (String.mk ("UPLOAD ".data ++ (F ++ ' ' :: b64encode B))).data =
        "UPLOAD".data ++ ' ' :: (F ++ ' ' :: b64encode B) from by simp,
      parse_verb_cmd _ _ (by decide) (by decide),
      tailParts_two hFw (by rw [rstripWs_no_ws hencw]; exact henc0), rstripWs_no_ws hencw]
    exact prosesParts_upload storage.data none fs [F, b64encode B]
  have hup : handle_upload storage.data none fs ["UPLOAD".data, F, b64encode B] =
      ⟨{ status := "OK", data := "File ".data ++ F ++ " uploaded successfully".data,
         file_size := some B.length },
       fsWrite fs (joinPath storage.data F) B,
       [FAccess.writeA (joinPath storage.data F)]⟩ := by
    unfold handle_upload
    rw [if_neg (by simp)]
    simp only [List.getD_cons_succ, List.getD_cons_zero]
    rw [if_neg (by rw [hF]; decide)]
    simp only [b64decode_encode B hB]
    simp only [show ioOr none (openWrite fs (joinPath storage.data F) B) =
        Except.ok (fsWrite fs (joinPath storage.data F) B) from by
      show openWrite fs (joinPath storage.data F) B = _
      unfold openWrite
      rw [if_neg (by rw [hdirl]; decide)]]
  have hg : proses_string storage none (fsWrite fs (joinPath storage.data F) B)
      (String.mk ("GET ".data ++ F)) =
      handle_get storage.data none (fsWrite fs (joinPath storage.data F) B)
        ["GET".data, F] := by
    unfold proses_string
    rw [show (String.mk ("GET ".data ++ F)).data = "GET".data ++ ' ' :: F from by simp,
      parse_verb_cmd _ _ (by decide) (by decide), tailParts_single hf0 hFw]
    exact prosesParts_get storage.data none _ [F]
  have hget : handle_get storage.data none (fsWrite fs (joinPath storage.data F) B)
      ["GET".data, F] =
      ⟨{ status := "OK", data := "File ".data ++ F ++ " retrieved successfully".data,
         data_file := some (b64encode B), file_size := some B.length },
       fsWrite fs (joinPath storage.data F) B,
       [FAccess.statA (joinPath storage.data F), FAccess.readA (joinPath storage.data F)]⟩ := by
    unfold handle_get
    rw [if_neg (by simp)]
    simp only [List.getD_cons_succ, List.getD_cons_zero]
    rw [if_neg (by rw [hF]; decide),
      if_neg (by rw [exists_after_write fs (joinPath storage.data F) B]; decide)]
    simp only [show ioOr none (openRead (fsWrite fs (joinPath storage.data F) B)
        (joinPath storage.data F)) = Except.ok B from by
      show openRead (fsWrite fs (joinPath storage.data F) B) (joinPath storage.data F) = _
      exact openRead_after_write hdirl]
  rw [hu, hup, hg, hget]
  exact ⟨rfl, rfl, rfl, rfl, b64encode B, rfl, b64decode_encode B hB⟩

/-- C1 witness: a concrete three-byte round trip through upload and get. -/
theorem c1_witness :
    (proses_string "files" none []
        (String.mk ("UPLOAD ".data ++ ("a.txt".data ++ ' ' :: b64encode [77, 97, 110])))).resp.status = "OK" ∧
    (proses_string "files" none []
        (String.mk ("UPLOAD ".data ++ ("a.txt".data ++ ' ' :: b64encode [77, 97, 110])))).resp.file_size =
      some ([77, 97, 110] : List Nat).length ∧
    (proses_string "files" none
        (proses_string "files" none []
          (String.mk ("UPLOAD ".data ++ ("a.txt".data ++ ' ' :: b64encode [77, 97, 110])))).fs
        (String.mk ("GET ".data ++ "a.txt".data))).resp.status = "OK" ∧
    (proses_string "files" none
        (proses_string "files" none []
          (String.mk ("UPLOAD ".data ++ ("a.txt".data ++ ' ' :: b64encode [77, 97, 110])))).fs
        (String.mk ("GET ".data ++ "a.txt".data))).resp.file_size =
      some ([77, 97, 110] : List Nat).length ∧
    ∃ df, (proses_string "files" none
        (proses_string "files" none []
          (String.mk ("UPLOAD ".data ++ ("a.txt".data ++ ' ' :: b64encode [77, 97, 110])))).fs
        (String.mk ("GET ".data ++ "a.txt".data))).resp.data_file = some df ∧
      b64decode df = some [77, 97, 110] :=
  c1_roundtrip "files" [] [77, 97, 110] "a.txt".data (by decide) (by decide)
    (by decide) (by decide) (by decide) (by decide) (by decide)

-- ===== C3: handler path safety =====

/-- C3: whatever command string arrives (and whatever I/O faults occur),
every path a handler opens for reading or writing or deletes is the storage
root joined with a validator-accepted filename, and every filesystem access
of any kind (content, stat, or directory listing) stays within the storage
root: it touches the root itself or a single separator-free child entry, never
a parent directory. -/
theorem c3_path_safety (storage : String) (io : Option String) (fs : FS) (cmd : String)
    (hs0 : storage.data ≠ []) (hs1 : storage.data.getLast? ≠ some '/') :
    ∀ a ∈ (proses_string storage io fs cmd).accesses,
      (a.isContent = true → ∃ f, is_valid_filename f = true ∧
        FAccess.path a = joinPath storage.data f) ∧
      withinRoot storage.data (FAccess.path a) := by
  intro a ha
  unfold proses_string prosesParts at ha
  rcases hps : pySplit2 (pyStrip cmd.data) with _ | ⟨p0, rest⟩
  · rw [hps] at ha
    simp at ha
  · rw [hps] at ha
    dsimp only at ha
    by_cases h1 : pyUpper p0 = "UPLOAD".data
    · rw [if_pos h1] at ha
      obtain ⟨f, hval, hpa⟩ := handle_upload_accesses _ _ _ _ a ha
      subst hpa
      exact ⟨fun _ => ⟨f, hval, rfl⟩, withinRoot_join_valid hval hs0 hs1⟩
    rw [if_neg h1] at ha
    by_cases h2 : pyUpper p0 = "GET".data
    · rw [if_pos h2] at ha
      obtain ⟨f, hval, hpa⟩ := handle_get_accesses _ _ _ _ a ha
      rcases hpa with hpa | hpa <;> subst hpa <;>
        exact ⟨fun _ => ⟨f, hval, rfl⟩, withinRoot_join_valid hval hs0 hs1⟩
    rw [if_neg h2] at ha
    by_cases h3 : pyUpper p0 = "LIST".data
    · rw [if_pos h3] at ha
      rcases handle_list_accesses _ _ _ a ha with hpa | ⟨n, hn, hpa⟩
      · subst hpa
        exact ⟨fun hc => by simp [FAccess.isContent] at hc, Or.inl rfl⟩
      · subst hpa
        exact ⟨fun hc => by simp [FAccess.isContent] at hc,
          withinRoot_join_listdir hn hs0 hs1⟩
    rw [if_neg h3] at ha
    by_cases h4 : pyUpper p0 = "DELETE".data
    · rw [if_pos h4] at ha
      obtain ⟨f, hval, hpa⟩ := handle_delete_accesses _ _ _ _ a ha
      rcases hpa with hpa | hpa <;> subst hpa <;>
        exact ⟨fun _ => ⟨f, hval, rfl⟩, withinRoot_join_valid hval hs0 hs1⟩
    · rw [if_neg h4] at ha
      simp at ha

/-- C3 witness: the accesses of a concrete GET stay within the root. -/
theorem c3_witness :
    ("files".data ≠ [] ∧ "files".data.getLast? ≠ some '/') ∧
    ∀ a ∈ (proses_string "files" none [] "GET a.txt").accesses,
      (a.isContent = true → ∃ f, is_valid_filename f = true ∧
        FAccess.path a = joinPath "files".data f) ∧
      withinRoot "files".data (FAccess.path a) :=
  ⟨⟨by decide, by decide⟩,
   c3_path_safety "files" none [] "GET a.txt" (by decide) (by decide)⟩

-- ===== C5: session-loop frame processing =====

theorem take_three_cons (x y z : Char) (l : List Char) :
    (x :: y :: z :: l).take 3 = [x, y, z] := rfl

theorem splitOnceDelim_cons_ne {c : Char} {l : List Char}
    (hc : ¬ (c = '\r' ∧ l.take 3 = ['\n', '\r', '\n'])) :
    splitOnceDelim (c :: l) = (splitOnceDelim l).map (fun p => (c :: p.1, p.2)) := by
  simp [splitOnceDelim, hc]

/-- Splitting a buffer that starts with a well-delimited frame recovers the
frame: the frame neither contains the delimiter nor ends with `\r\n` (which
would let the delimiter start early across the boundary). -/
theorem splitOnceDelim_frame : ∀ (f rest : List Char),
    ¬ (delimL <:+: f) → ¬ (['\r', '\n'] <:+ f) →
    splitOnceDelim (f ++ delimL ++ rest) = some (f, rest)
  | [], rest, _, _ => by
    rw [show ([] : List Char) ++ delimL ++ rest =
      '\r' :: '\n' :: '\r' :: '\n' :: rest from rfl]
    unfold splitOnceDelim
    rw [if_pos (by constructor <;> rfl)]
    rfl
  | c :: f', rest, h1, h2 => by
    rw [show (c :: f') ++ delimL ++ rest = c :: (f' ++ delimL ++ rest) from by simp]
    have hcond : ¬ (c = '\r' ∧ (f' ++ delimL ++ rest).take 3 = ['\n', '\r', '\n']) := by
      rintro ⟨hc, ht⟩
      subst hc
      rcases f' with _ | ⟨c2, f''⟩
      · rw [show ([] : List Char) ++ delimL ++ rest =
          '\r' :: '\n' :: '\r' :: '\n' :: rest from rfl, take_three_cons] at ht
        simp at ht
      rcases f'' with _ | ⟨c3, f'''⟩
      · rw [show (c2 :: []) ++ delimL ++ rest =
          c2 :: '\r' :: '\n' :: '\r' :: '\n' :: rest from by simp [delimL],
          take_three_cons] at ht
        simp at ht
        subst ht
        exact h2 ⟨[], rfl⟩
      rcases f''' with _ | ⟨c4, f4⟩
      · rw [show (c2 :: c3 :: []) ++ delimL ++ rest =
          c2 :: c3 :: '\r' :: '\n' :: '\r' :: '\n' :: rest from by simp [delimL],
          take_three_cons] at ht
        simp at ht
      · rw [show (c2 :: c3 :: c4 :: f4) ++ delimL ++ rest =
          c2 :: c3 :: c4 :: (f4 ++ delimL ++ rest) from by simp,
          take_three_cons] at ht
        simp at ht
        obtain ⟨hc2, hc3, hc4⟩ := ht
        subst hc2
        subst hc3
        subst hc4
        exact h1 ⟨[], f4, by simp [delimL]⟩
    rw [splitOnceDelim_cons_ne hcond,
      splitOnceDelim_frame f' rest
        (fun hi => h1 (List.infix_cons hi))
        (fun hs => h2 (hs.trans (List.suffix_cons c f')))]
    rfl

theorem runCommands_length (storage : String) : ∀ (fs : FS) (frames : List (List Char)),
    (runCommands storage fs frames).1.length = frames.length
  | _, [] => rfl
  | fs, c :: cs => by
    unfold runCommands
    simp only [List.length_cons]
    rw [runCommands_length storage _ cs]

theorem processBufferAux_frames (storage : String) :
    ∀ (frames : List (List Char)) (fuel : Nat) (fs : FS),
    (∀ f ∈ frames, ¬ (delimL <:+: f) ∧ ¬ (['\r', '\n'] <:+ f)) →
    (frameJoin frames).length ≤ fuel →
    processBufferAux storage fuel fs (frameJoin frames) =
      ((runCommands storage fs frames).1, (runCommands storage fs frames).2, [])
  | [], fuel, fs, _, _ => by
    cases fuel with
    | zero => rfl
    | succ k => rfl
  | f :: fr, fuel, fs, hfr, hfuel => by
    have hjoin : frameJoin (f :: fr) = f ++ delimL ++ frameJoin fr := by
      simp [frameJoin]
    cases fuel with
    | zero =>
      exfalso
      rw [hjoin] at hfuel
      simp [delimL] at hfuel
    | succ k =>
      rw [hjoin]
      show processBufferAux storage (k + 1) fs (f ++ delimL ++ frameJoin fr) = _
      unfold processBufferAux
      rw [splitOnceDelim_frame f (frameJoin fr) (hfr f (by simp)).1 (hfr f (by simp)).2]
      dsimp only
      have hfuel2 : (frameJoin fr).length ≤ k := by
        rw [hjoin] at hfuel
        simp [delimL] at hfuel
        omega
      rw [processBufferAux_frames storage fr k
        ((proses_string storage none fs (String.mk f)).fs)
        (fun g hg => hfr g (by simp [hg])) hfuel2]
      rw [show runCommands storage fs (f :: fr) =
        ((proses_string storage none fs (String.mk f)).resp ::
          (runCommands storage (proses_string storage none fs (String.mk f)).fs fr).1,
         (runCommands storage (proses_string storage none fs (String.mk f)).fs fr).2)
        from rfl]

/-- C5: when the session buffer holds a back-to-back sequence of complete
delimiter-terminated frames (each free of the delimiter, and not ending in
`\r\n`, so the framing is unambiguous), the inner loop of `handle_client`
emits exactly one response per frame, in the order the frames appear, each
response computed on the state left by the previous command, consuming the
whole buffer before any further read. -/
theorem c5_pipelined_frames (storage : String) (fs : FS) (frames : List (List Char))
    (h : ∀ f ∈ frames, ¬ (delimL <:+: f) ∧ ¬ (['\r', '\n'] <:+ f)) :
    processBuffer storage fs (frameJoin frames) =
      ((runCommands storage fs frames).1, (runCommands storage fs frames).2, []) ∧
    (processBuffer storage fs (frameJoin frames)).1.length = frames.length := by
  have hmain := processBufferAux_frames storage frames (frameJoin frames).length fs h
    (le_refl _)
  constructor
  · exact hmain
  · show (processBufferAux storage (frameJoin frames).length fs (frameJoin frames)).1.length = _
    rw [hmain]
    exact runCommands_length storage fs frames

/-- C5 witness: an UPLOAD frame and a LIST frame sent in one buffer yield two
responses in order, the LIST response reflecting the upload. -/
theorem c5_witness :
    processBuffer "files" [] (frameJoin ["UPLOAD a.txt TWFu".data, "LIST".data]) =
      ((runCommands "files" [] ["UPLOAD a.txt TWFu".data, "LIST".data]).1,
       (runCommands "files" [] ["UPLOAD a.txt TWFu".data, "LIST".data]).2, []) ∧
    (processBuffer "files" []
      (frameJoin ["UPLOAD a.txt TWFu".data, "LIST".data])).1.length = 2 :=
  c5_pipelined_frames "files" [] ["UPLOAD a.txt TWFu".data, "LIST".data] (by decide)
